import Mathlib

/-!
# Verification of the conversation-orchestration core of the Friday WhatsApp bot

Shallow embedding of the JavaScript sources into Lean 4.  Mutable
`Map`s become association lists in insertion order (JS `Map` preserves
insertion order and has unique keys); `Date.now()` timestamps become
integers (milliseconds); functions that mutate module-level state
become state-passing functions returning the new state; external
collaborators (the AI capability, the transport, the SQL repositories)
are parameters of the embedded functions, with the values the source
reads from them made explicit arguments.

Sources embedded below:
* `src/services/offline-assistant.js`  (owner-activity tracker)
* `src/safety/rate-limiter.js`
* `src/safety/loop-detector.js`
* `src/ai/chat-session.js`             (session cache)
* `src/database/repositories/follow-ups.repo.js` and the follow-up
  tracker's `getReminders` sweep
* the message router (`handleInbound`, `_routeAndReply`,
  `handleOwnerMessage`, `_startResumeChecker`) and
  `src/safety/message-filter.js`
-/

set_option autoImplicit false

namespace Friday

/-- Milliseconds since epoch, as produced by `Date.now()`. -/
abbrev Time := Int

/-! ## JS `Map` model: association lists in insertion order, unique keys -/

/-- `Map.get`: first entry with the key (keys are unique by construction). -/
def jget {α : Type} : List (String × α) → String → Option α
  | [], _ => none
  | (k', v) :: rest, k => if k' = k then some v else jget rest k

/-- `Map.set`: replace in place when the key exists (keeping its position),
otherwise append at the end, as JS `Map` does. -/
def jset {α : Type} : List (String × α) → String → α → List (String × α)
  | [], k, v => [(k, v)]
  | (k', v') :: rest, k, v =>
    if k' = k then (k, v) :: rest else (k', v') :: jset rest k v

/-- `Map.delete`: remove the (unique) entry with the key. -/
def jdelete {α : Type} : List (String × α) → String → List (String × α)
  | [], _ => []
  | (k', v') :: rest, k => if k' = k then rest else (k', v') :: jdelete rest k

/-- Keys of the map, in insertion order. -/
def jkeys {α : Type} (m : List (String × α)) : List String := m.map Prod.fst

theorem jget_jset_self {α : Type} (m : List (String × α)) (k : String) (v : α) :
    jget (jset m k v) k = some v := by
  induction m with
  | nil => simp [jget, jset]
  | cons p rest ih =>
    obtain ⟨k', v'⟩ := p
    by_cases h : k' = k
    · simp [jget, jset, h]
    · simp [jget, jset, h, ih]

theorem jget_jset_ne {α : Type} (m : List (String × α)) (k k' : String) (v : α)
    (h : k ≠ k') : jget (jset m k v) k' = jget m k' := by
  induction m with
  | nil => simp [jget, jset, h]
  | cons p rest ih =>
    obtain ⟨k₀, v₀⟩ := p
    by_cases h0 : k₀ = k
    · simp [jget, jset, h0, h]
    · by_cases h1 : k₀ = k'
      · simp [jget, jset, h0, h1, Ne.symm h]
      · simp [jget, jset, h0, h1, ih]

theorem jget_jdelete_ne {α : Type} (m : List (String × α)) (k k' : String)
    (h : k ≠ k') : jget (jdelete m k) k' = jget m k' := by
  induction m with
  | nil => simp [jget, jdelete]
  | cons p rest ih =>
    obtain ⟨k₀, v₀⟩ := p
    by_cases h0 : k₀ = k
    · subst h0
      simp [jget, jdelete, h]
    · by_cases h1 : k₀ = k'
      · simp [jget, jdelete, h0, h1, Ne.symm h]
      · simp [jget, jdelete, h0, h1, ih]

theorem jget_jdelete_self {α : Type} (m : List (String × α)) (k : String)
    (hnd : (jkeys m).Nodup) : jget (jdelete m k) k = none := by
  induction m with
  | nil => simp [jget, jdelete]
  | cons p rest ih =>
    obtain ⟨k₀, v₀⟩ := p
    simp only [jkeys, List.map_cons, List.nodup_cons] at hnd
    by_cases h0 : k₀ = k
    · subst h0
      -- the remaining entries cannot contain the key again
      simp only [jdelete, if_pos rfl]
      clear ih
      induction rest with
      | nil => simp [jget]
      | cons q rq ihq =>
        obtain ⟨k₁, v₁⟩ := q
        have hk₁ : k₁ ≠ k₀ := by
          intro hcontra
          exact hnd.1 (by simp [hcontra])
        simp only [jget, if_neg hk₁]
        exact ihq ⟨fun hm => hnd.1 (by simp [hm]), (List.nodup_cons.mp hnd.2).2⟩
    · simp only [jdelete, if_neg h0, jget, if_neg h0]
      exact ih hnd.2

/-! ## `src/services/offline-assistant.js` — owner-activity tracker

The module keeps `ownerActivity : Map<jid, timestamp>` (the cooldown
anchor).  `COOLDOWN_MS` and `TYPING_PAUSE_MS` are the literals of the
source.  JS truthiness: `!lastReply` and `get(jid) || 0` treat a stored
`0` like a missing entry; the embedding reproduces that. -/

def COOLDOWN_MS : Time := 3 * 60 * 1000
def TYPING_PAUSE_MS : Time := 60 * 1000

/-- `ownerActivity`: jid → cooldown anchor timestamp. -/
abbrev Activity := List (String × Time)

/-- `recordOwnerReply(jid)`: `ownerActivity.set(jid, Date.now())`. -/
def recordOwnerReply (m : Activity) (jid : String) (now : Time) : Activity :=
  jset m jid now

/-- The stored effective expiry used by `recordTyping`:
`(ownerActivity.get(jid) || 0) + COOLDOWN_MS`. -/
def storedExpiry (m : Activity) (jid : String) : Time :=
  (jget m jid).getD 0 + COOLDOWN_MS

/-- `recordTyping(jid)`: compute `currentExpiry = (get(jid) || 0) + COOLDOWN_MS`
and `newExpiry = now + TYPING_PAUSE_MS`; if `newExpiry > currentExpiry`
store `now + TYPING_PAUSE_MS - COOLDOWN_MS` as the new anchor, else leave
the map untouched. -/
def recordTyping (m : Activity) (jid : String) (now : Time) : Activity :=
  let currentExpiry := (jget m jid).getD 0 + COOLDOWN_MS
  let newExpiry := now + TYPING_PAUSE_MS
  if currentExpiry < newExpiry then
    jset m jid (now + TYPING_PAUSE_MS - COOLDOWN_MS)
  else m

/-- `isOwnerActive(jid)`: `false` when the entry is missing (or the anchor
is the falsy `0`); `true` while `now - lastReply < COOLDOWN_MS`; on expiry
lazily deletes the entry and returns `false`.  Returns (result, new map). -/
def isOwnerActive (m : Activity) (jid : String) (now : Time) : Bool × Activity :=
  match jget m jid with
  | none => (false, m)
  | some lastReply =>
    if lastReply = 0 then (false, m)
    else if now - lastReply < COOLDOWN_MS then (true, m)
    else (false, jdelete m jid)

/-- `forceResume(jid)`: unconditional delete. -/
def forceResume (m : Activity) (jid : String) : Activity := jdelete m jid

/-- C3: `recordTyping` never shrinks the effective suppression expiry.
If the candidate expiry `now + TYPING_PAUSE_MS` is later than the stored
expiry (anchor + full cooldown, with `0` anchor when no entry exists),
the anchor becomes `now + TYPING_PAUSE_MS - COOLDOWN_MS`, making the
effective expiry exactly `now + TYPING_PAUSE_MS`; otherwise the map is
untouched.  In particular the expiry never decreases, and with no
existing entry (and a realistic clock, `now + TYPING_PAUSE_MS >
COOLDOWN_MS`) the expiry becomes exactly `now + TYPING_PAUSE_MS`. -/
theorem recordTyping_never_shrinks (m : Activity) (jid : String) (now : Time) :
    (storedExpiry m jid < now + TYPING_PAUSE_MS →
       recordTyping m jid now = jset m jid (now + TYPING_PAUSE_MS - COOLDOWN_MS) ∧
       storedExpiry (recordTyping m jid now) jid = now + TYPING_PAUSE_MS) ∧
    (¬ storedExpiry m jid < now + TYPING_PAUSE_MS →
       recordTyping m jid now = m) ∧
    storedExpiry m jid ≤ storedExpiry (recordTyping m jid now) jid ∧
    (jget m jid = none → COOLDOWN_MS < now + TYPING_PAUSE_MS →
       storedExpiry (recordTyping m jid now) jid = now + TYPING_PAUSE_MS) := by
  have hset : storedExpiry (jset m jid (now + TYPING_PAUSE_MS - COOLDOWN_MS)) jid
      = now + TYPING_PAUSE_MS := by
    simp only [storedExpiry, jget_jset_self, Option.getD_some]
    ring
  have key : recordTyping m jid now =
      if storedExpiry m jid < now + TYPING_PAUSE_MS then
        jset m jid (now + TYPING_PAUSE_MS - COOLDOWN_MS)
      else m := rfl
  refine ⟨?_, ?_, ?_, ?_⟩
  · intro hlt
    have heq : recordTyping m jid now = jset m jid (now + TYPING_PAUSE_MS - COOLDOWN_MS) := by
      rw [key, if_pos hlt]
    exact ⟨heq, by rw [heq, hset]⟩
  · intro hge
    rw [key, if_neg hge]
  · by_cases hlt : storedExpiry m jid < now + TYPING_PAUSE_MS
    · have heq : recordTyping m jid now = jset m jid (now + TYPING_PAUSE_MS - COOLDOWN_MS) := by
        rw [key, if_pos hlt]
      rw [heq, hset]
      exact le_of_lt hlt
    · rw [key, if_neg hlt]
  · intro hnone hclock
    have hse : storedExpiry m jid = COOLDOWN_MS := by
      simp [storedExpiry, hnone]
    have hlt : storedExpiry m jid < now + TYPING_PAUSE_MS := by rw [hse]; exact hclock
    have heq : recordTyping m jid now = jset m jid (now + TYPING_PAUSE_MS - COOLDOWN_MS) := by
      rw [key, if_pos hlt]
    rw [heq, hset]

/-- C3 witness: with no existing entry at `now = 1000000`, `recordTyping`
sets the effective expiry to exactly `now + TYPING_PAUSE_MS`; with a
pending longer cooldown (anchor `999999` at `now = 1000000`) the map is
left untouched. -/
theorem recordTyping_never_shrinks_witness :
    storedExpiry (recordTyping [] "c" 1000000) "c" = 1000000 + TYPING_PAUSE_MS ∧
    recordTyping [("c", 999999)] "c" 1000000 = [("c", 999999)] := by
  refine ⟨(recordTyping_never_shrinks [] "c" 1000000).2.2.2 rfl (by decide), ?_⟩
  exact (recordTyping_never_shrinks [("c", 999999)] "c" 1000000).2.1 (by decide)

/-! ## `src/safety/rate-limiter.js` — sliding window per contact

`windows : Map<jid, number[]>` holds event timestamps in arrival
order.  `check` prunes the head while it is older than the cutoff
(`while (timestamps.length > 0 && timestamps[0] < cutoff) shift()`,
i.e. `dropWhile`), then rejects when `count >= max`.  The config
defaults are `RATE_LIMIT_MAX = 15`, `RATE_LIMIT_WINDOW_MS = 60000`
(`src/config/index.js`). -/

def rateLimitMax : Nat := 15
def rateLimitWindowMs : Time := 60000

structure RateCheckResult where
  allowed : Bool
  remaining : Nat
  retryAfterMs : Option Time
deriving Repr, DecidableEq

/-- `check(jid)` acting on one contact's timestamp list; returns the
result and the pruned list the map now holds.  `headD 0` stands for
`timestamps[0]`, only read in the reject branch where the list is
nonempty (`length ≥ max > 0`). -/
def rateCheck (ts : List Time) (now : Time) : RateCheckResult × List Time :=
  let cutoff := now - rateLimitWindowMs
  let pruned := ts.dropWhile (fun t => decide (t < cutoff))
  if rateLimitMax ≤ pruned.length then
    (⟨false, 0, some (pruned.headD 0 + rateLimitWindowMs - now)⟩, pruned)
  else
    (⟨true, rateLimitMax - pruned.length, none⟩, pruned)

/-- `record(jid)`: push `Date.now()` onto the contact's list. -/
def rateRecord (ts : List Time) (now : Time) : List Time := ts ++ [now]

theorem dropWhile_lt_eq_nil_of_forall (l : List Time) (c : Time)
    (h : ∀ t ∈ l, t < c) : l.dropWhile (fun t => decide (t < c)) = [] := by
  induction l with
  | nil => rfl
  | cons a l ih =>
    rw [List.dropWhile_cons, if_pos (by simpa using h a (List.mem_cons_self a l))]
    exact ih (fun t ht => h t (List.mem_cons_of_mem a ht))

/-- C6: the rate limiter's `check` first prunes timestamps older than the
window, rejects (allowed = false, remaining = 0, retryAfterMs =
oldest-in-window + window − now) exactly when the pruned count reaches
`max`, and allows with `remaining = max − count` otherwise; `record`
only appends and `check` never consumes capacity (the state it leaves
is exactly the pruned list).  Consequently a contact with `max`
timestamps still inside the window has the next message rejected, and
once every recorded timestamp has aged past the window the next check
is allowed again. -/
theorem rateLimiter_window (ts : List Time) (now : Time) :
    (rateCheck ts now).2 = ts.dropWhile (fun t => decide (t < now - rateLimitWindowMs)) ∧
    (rateLimitMax ≤ (rateCheck ts now).2.length →
       (rateCheck ts now).1 = ⟨false, 0,
         some ((rateCheck ts now).2.headD 0 + rateLimitWindowMs - now)⟩) ∧
    ((rateCheck ts now).2.length < rateLimitMax →
       (rateCheck ts now).1 = ⟨true, rateLimitMax - (rateCheck ts now).2.length, none⟩) ∧
    rateRecord ts now = ts ++ [now] ∧
    ((∀ t ∈ ts, t + rateLimitWindowMs < now) → (rateCheck ts now).1.allowed = true) := by
  have hdw : (rateCheck ts now).2
      = ts.dropWhile (fun t => decide (t < now - rateLimitWindowMs)) := by
    simp only [rateCheck]
    split <;> rfl
  refine ⟨hdw, ?_, ?_, rfl, ?_⟩
  · intro hge
    rw [hdw] at hge
    simp only [rateCheck, if_pos hge, hdw]
  · intro hlt
    rw [hdw] at hlt
    have : ¬ rateLimitMax ≤ (ts.dropWhile (fun t => decide (t < now - rateLimitWindowMs))).length :=
      not_le.mpr hlt
    simp only [rateCheck, if_neg this, hdw]
  · intro hall
    have hnil : ts.dropWhile (fun t => decide (t < now - rateLimitWindowMs)) = [] :=
      dropWhile_lt_eq_nil_of_forall ts (now - rateLimitWindowMs)
        (fun t ht => by have h1 := hall t ht; linarith)
    have : ¬ rateLimitMax ≤ (ts.dropWhile (fun t => decide (t < now - rateLimitWindowMs))).length := by
      rw [hnil]
      simp [rateLimitMax]
    simp only [rateCheck, if_neg this]

/-- C6 witness: with 15 timestamps inside the window at `now = 100000`,
the 16th check is rejected; at `now = 200000` (every timestamp aged out)
the check is allowed again, and `record` appends. -/
theorem rateLimiter_window_witness :
    (rateCheck [50000, 51000, 52000, 53000, 54000, 55000, 56000, 57000,
                58000, 59000, 60000, 61000, 62000, 63000, 64000] 100000).1
      = ⟨false, 0, some 10000⟩ ∧
    (rateCheck [50000, 51000, 52000, 53000, 54000, 55000, 56000, 57000,
                58000, 59000, 60000, 61000, 62000, 63000, 64000] 200000).1.allowed = true := by
  constructor
  · have h := (rateLimiter_window [50000, 51000, 52000, 53000, 54000, 55000, 56000,
      57000, 58000, 59000, 60000, 61000, 62000, 63000, 64000] 100000).2.1 (by decide)
    rw [h]
    decide
  · exact (rateLimiter_window [50000, 51000, 52000, 53000, 54000, 55000, 56000,
      57000, 58000, 59000, 60000, 61000, 62000, 63000, 64000] 200000).2.2.2.2 (by decide)

/-! ## `src/safety/loop-detector.js`

`state : Map<jid, { messages: string[], haltedUntil: number }>`.
`check(jid, text)` short-circuits while halted, resets an expired halt,
pushes `text.toLowerCase().trim()` into the bounded window, and runs
`_hasRepetition` on the last `config.safety.loopDetectThreshold`
messages (`slice(-threshold)`); on detection `haltedUntil = now +
config.safety.haltDurationMs`.  Word sets come from `split(/\s+/)`
(modelled on space-separated, pre-trimmed text; JS `"".split(/\s+/)`
is `[""]`).  The float threshold `intersection / union >= 0.8` is
modelled by the exact rational test `4 * union ≤ 5 * intersection`,
which agrees with the double computation for all word-set sizes that
can occur. -/

def WINDOW_SIZE : Nat := 6
def loopDetectThreshold : Nat := 3
def haltDurationMs : Time := 600000

structure LoopEntry where
  messages : List String
  haltedUntil : Time
deriving Repr, DecidableEq

structure LoopCheckResult where
  loopDetected : Bool
  isHalted : Bool
  haltRemainingMs : Option Time
deriving Repr, DecidableEq

/-- `String.prototype.toLowerCase()` (ASCII range), implemented over the
character list so it evaluates by kernel reduction. -/
def jsToLower (s : String) : String := ⟨s.data.map Char.toLower⟩

/-- `String.prototype.trim()`: strip leading and trailing whitespace. -/
def jsTrim (s : String) : String :=
  ⟨((s.data.dropWhile Char.isWhitespace).reverse.dropWhile Char.isWhitespace).reverse⟩

/-- Split a character list at spaces (accumulating the current word
reversed), the character-level equivalent of splitting on whitespace
runs once empty pieces are filtered out. -/
def splitWSAux : List Char → List Char → List (List Char)
  | [], acc => [acc.reverse]
  | c :: cs, acc =>
    if c = ' ' then acc.reverse :: splitWSAux cs [] else splitWSAux cs (c :: acc)

/-- `s.split(/\s+/)` for a trimmed string (whitespace = spaces): the
nonempty space-separated words; JS `"".split(/\s+/)` is `[""]`. -/
def jsSplitWS (s : String) : List String :=
  if s = "" then [""]
  else ((splitWSAux s.data []).filter (fun l => l ≠ [])).map (fun l => ⟨l⟩)

/-- `new Set(s.split(/\s+/))`. -/
def wordSet (s : String) : Finset String := (jsSplitWS s).toFinset

/-- `union > 0 && intersection / union >= SIMILARITY_THRESHOLD` with the
0.8 threshold as the rational inequality `5·inter ≥ 4·union`. -/
def jaccardSimilar (a b : Finset String) : Bool :=
  decide (0 < (a ∪ b).card ∧ 4 * (a ∪ b).card ≤ 5 * (a ∩ b).card)

/-- `_hasRepetition(messages)`: windows shorter than 2 never repeat; a
single distinct value repeats; otherwise count the later messages whose
word set is Jaccard-similar to the first message's word set and require
`similarCount >= messages.length - 1`. -/
def hasRepetition (messages : List String) : Bool :=
  if messages.length < 2 then false
  else if messages.toFinset.card = 1 then true
  else
    match messages with
    | [] => false
    | first :: rest =>
      decide ((first :: rest).length - 1 ≤
        (rest.filter (fun m => jaccardSimilar (wordSet first) (wordSet m))).length)

/-- Reset of an expired halt: `haltedUntil > 0 && haltedUntil <= now`
clears the window and the halt. -/
def loopResetEntry (entry : LoopEntry) (now : Time) : LoopEntry :=
  if 0 < entry.haltedUntil ∧ entry.haltedUntil ≤ now then ⟨[], 0⟩ else entry

/-- Push the normalized text and bound the window at `WINDOW_SIZE`
(`push` then `shift`). -/
def loopWindow (entry : LoopEntry) (text : String) : List String :=
  let msgs := entry.messages ++ [jsTrim (jsToLower text)]
  if WINDOW_SIZE < msgs.length then msgs.tail else msgs

/-- `check(jid, text)` on one contact's entry (the router creates
`{ messages: [], haltedUntil: 0 }` when the map has no entry). -/
def loopCheck (entry : LoopEntry) (text : String) (now : Time)
    (threshold : Nat) (haltDur : Time) : LoopCheckResult × LoopEntry :=
  if now < entry.haltedUntil then
    (⟨true, true, some (entry.haltedUntil - now)⟩, entry)
  else
    let entry1 := loopResetEntry entry now
    let msgs := loopWindow entry1 text
    if threshold ≤ msgs.length then
      if hasRepetition (msgs.drop (msgs.length - threshold)) then
        (⟨true, true, some haltDur⟩, ⟨msgs, now + haltDur⟩)
      else (⟨false, false, none⟩, ⟨msgs, entry1.haltedUntil⟩)
    else (⟨false, false, none⟩, ⟨msgs, entry1.haltedUntil⟩)

theorem hasRepetition_iff (first : String) (rest : List String) (hne : rest ≠ []) :
    (hasRepetition (first :: rest) = true ↔
      ((first :: rest).toFinset.card = 1 ∨
       ∀ m ∈ rest, jaccardSimilar (wordSet first) (wordSet m) = true)) := by
  have hlen : ¬ (first :: rest).length < 2 := by
    cases rest with
    | nil => exact absurd rfl hne
    | cons b l => simp [List.length_cons]
  have heq : hasRepetition (first :: rest)
      = if (first :: rest).length < 2 then false
        else if (first :: rest).toFinset.card = 1 then true
        else decide ((first :: rest).length - 1 ≤
          (rest.filter (fun m => jaccardSimilar (wordSet first) (wordSet m))).length) := rfl
  rw [heq, if_neg hlen]
  by_cases hcard : (first :: rest).toFinset.card = 1
  · rw [if_pos hcard]
    exact iff_of_true rfl (Or.inl hcard)
  · rw [if_neg hcard, or_iff_right hcard, decide_eq_true_eq]
    have hsub : (first :: rest).length - 1 = rest.length := by simp
    rw [hsub]
    constructor
    · intro h
      have hle := List.length_filter_le
        (fun m => jaccardSimilar (wordSet first) (wordSet m)) rest
      have hlene : (rest.filter (fun m => jaccardSimilar (wordSet first) (wordSet m))).length
          = rest.length := le_antisymm hle h
      have hfeq : rest.filter (fun m => jaccardSimilar (wordSet first) (wordSet m)) = rest :=
        (List.filter_sublist rest).eq_of_length hlene
      exact fun m hm => List.filter_eq_self.mp hfeq m hm
    · intro h
      rw [List.filter_eq_self.mpr h]

/-- C4: the loop detector.  While halted (`haltedUntil > now`) the check
short-circuits, reporting the remaining halt and leaving the entry
untouched (halts expire purely by timestamp comparison).  When not
halted, on the checked slice (the last `threshold` window messages,
`threshold ≥ 2` as configured, default 3): a loop is detected iff the
slice has exactly one distinct element, or every later message's word
set is Jaccard-similar (≥ 0.8) to the first message's word set — i.e.
all but one (the reference message) of the window meet the threshold;
on detection `haltedUntil` becomes `now + haltDur`. -/
theorem loopDetector_check (entry : LoopEntry) (text : String) (now : Time)
    (threshold : Nat) (haltDur : Time) :
    (now < entry.haltedUntil →
       loopCheck entry text now threshold haltDur
         = (⟨true, true, some (entry.haltedUntil - now)⟩, entry)) ∧
    (entry.haltedUntil ≤ now → 2 ≤ threshold →
     ∀ first rest,
       (loopWindow (loopResetEntry entry now) text).drop
           ((loopWindow (loopResetEntry entry now) text).length - threshold)
         = first :: rest →
       threshold ≤ (loopWindow (loopResetEntry entry now) text).length →
       (((loopCheck entry text now threshold haltDur).1.loopDetected = true ↔
          ((first :: rest).toFinset.card = 1 ∨
           ∀ m ∈ rest, jaccardSimilar (wordSet first) (wordSet m) = true)) ∧
        ((loopCheck entry text now threshold haltDur).1.loopDetected = true →
          (loopCheck entry text now threshold haltDur).2.haltedUntil = now + haltDur))) := by
  constructor
  · intro hhalt
    simp only [loopCheck, if_pos hhalt]
  · intro hexp hthr first rest hslice hlen
    have hnot : ¬ now < entry.haltedUntil := not_lt.mpr hexp
    have hrestne : rest ≠ [] := by
      intro hcontra
      subst hcontra
      have hdl : ((loopWindow (loopResetEntry entry now) text).drop
          ((loopWindow (loopResetEntry entry now) text).length - threshold)).length = 1 := by
        rw [hslice]
        rfl
      rw [List.length_drop] at hdl
      omega
    have hrep := hasRepetition_iff first rest hrestne
    simp only [loopCheck, if_neg hnot, if_pos hlen]
    by_cases hdet : hasRepetition ((loopWindow (loopResetEntry entry now) text).drop
        ((loopWindow (loopResetEntry entry now) text).length - threshold)) = true
    · rw [if_pos hdet]
      rw [hslice] at hdet
      exact ⟨iff_of_true rfl (hrep.mp hdet), fun _ => rfl⟩
    · rw [if_neg hdet]
      rw [hslice] at hdet
      constructor
      · constructor
        · intro hfalse
          exact absurd hfalse (by simp)
        · intro hr
          exact absurd (hrep.mpr hr) hdet
      · intro hfalse
        exact absurd hfalse (by simp)

/-- C4 witness: a third identical message (after lowercasing) in a
window with threshold 3 detects a loop and halts until `now + haltDur`;
an entry halted until 1500 short-circuits at `now = 1000` with 500 ms
remaining. -/
theorem loopDetector_check_witness :
    (loopCheck ⟨["hello", "hello"], 0⟩ "Hello" 1000 3 600000).1.loopDetected = true ∧
    (loopCheck ⟨["hello", "hello"], 0⟩ "Hello" 1000 3 600000).2.haltedUntil = 1000 + 600000 ∧
    loopCheck ⟨["hi"], 1500⟩ "x" 1000 3 600000
      = (⟨true, true, some 500⟩, ⟨["hi"], 1500⟩) := by
  have h := (loopDetector_check ⟨["hello", "hello"], 0⟩ "Hello" 1000 3 600000).2
    (by decide) (by decide) "hello" ["hello", "hello"] (by decide) (by decide)
  have hdet : (loopCheck ⟨["hello", "hello"], 0⟩ "Hello" 1000 3 600000).1.loopDetected = true :=
    h.1.mpr (Or.inl (by decide))
  refine ⟨hdet, h.2 hdet, ?_⟩
  exact (loopDetector_check ⟨["hi"], 1500⟩ "x" 1000 3 600000).1 (by decide)

/-! ### Further JS-map lemmas (used for the session cache) -/

theorem jget_eq_none_iff {α : Type} (m : List (String × α)) (k : String) :
    jget m k = none ↔ k ∉ jkeys m := by
  induction m with
  | nil => simp [jget, jkeys]
  | cons p rest ih =>
    obtain ⟨k', v'⟩ := p
    by_cases h : k' = k
    · simp [jget, jkeys, h]
    · simp [jget, jkeys, h, ih, Ne.symm h]

theorem jset_eq_append {α : Type} (m : List (String × α)) (k : String) (v : α)
    (h : jget m k = none) : jset m k v = m ++ [(k, v)] := by
  induction m with
  | nil => rfl
  | cons p rest ih =>
    obtain ⟨k', v'⟩ := p
    by_cases h0 : k' = k
    · simp [jget, h0] at h
    · simp only [jget, if_neg h0] at h
      simp [jset, h0, ih h]

theorem jkeys_jset_mem {α : Type} (m : List (String × α)) (k : String) (v : α)
    (h : k ∈ jkeys m) : jkeys (jset m k v) = jkeys m := by
  induction m with
  | nil => simp [jkeys] at h
  | cons p rest ih =>
    obtain ⟨k', v'⟩ := p
    by_cases h0 : k' = k
    · simp [jset, jkeys, h0]
    · simp only [jkeys, List.map_cons, List.mem_cons] at h
      rcases h with h | h
      · exact absurd h.symm h0
      · have hrec := ih (by simpa [jkeys] using h)
        simp only [jkeys] at hrec
        simp [jset, jkeys, h0, hrec]

theorem jdelete_sublist {α : Type} (m : List (String × α)) (k : String) :
    (jdelete m k).Sublist m := by
  induction m with
  | nil => simp [jdelete]
  | cons p rest ih =>
    obtain ⟨k', v'⟩ := p
    by_cases h0 : k' = k
    · simp only [jdelete, if_pos h0]
      exact List.sublist_cons_self _ _
    · simp only [jdelete, if_neg h0]
      exact ih.cons₂ _

theorem jdelete_length {α : Type} (m : List (String × α)) (k : String)
    (h : k ∈ jkeys m) : (jdelete m k).length + 1 = m.length := by
  induction m with
  | nil => simp [jkeys] at h
  | cons p rest ih =>
    obtain ⟨k', v'⟩ := p
    by_cases h0 : k' = k
    · simp [jdelete, h0]
    · simp only [jkeys, List.map_cons, List.mem_cons] at h
      rcases h with h | h
      · exact absurd h.symm h0
      · simp only [jdelete, if_neg h0, List.length_cons]
        rw [← ih (by simpa [jkeys] using h)]

theorem jget_append_right {α : Type} (m l : List (String × α)) (k : String)
    (h : jget m k = none) : jget (m ++ l) k = jget l k := by
  induction m with
  | nil => simp
  | cons p rest ih =>
    obtain ⟨k', v'⟩ := p
    by_cases h0 : k' = k
    · simp [jget, h0] at h
    · simp only [jget, if_neg h0] at h
      simp only [List.cons_append, jget, if_neg h0]
      exact ih h

/-! ## `src/ai/chat-session.js` — bounded per-contact session cache

`_sessions : Map<jid, { history, lastAccess, turnCount,
systemInstruction }>`.  `_getEntry` refreshes `lastAccess` on a hit;
on a miss it builds the system instruction once
(`promptBuilder.buildSystemPrompt(contactProfile)`, passed here as the
`sysInstr` argument), inserts a fresh entry, and evicts the session
with the smallest `lastAccess` when the size exceeds `MAX_SESSIONS`.
The eviction loop keeps the first entry (in insertion order) whose
`lastAccess` is strictly smaller than the best so far; the JS guard
`if (oldestJid)` makes an empty-string jid (falsy) never deleted, kept
faithfully. -/

def MAX_SESSIONS : Nat := 200
def SESSION_TTL_MS : Time := 30 * 60 * 1000

structure SessionEntry where
  history : List String
  lastAccess : Time
  turnCount : Nat
  systemInstruction : String
deriving Repr, DecidableEq

abbrev Sessions := List (String × SessionEntry)

/-- The `for (const [jid, entry] of map)` minimum scan of `_evictOldest`,
carrying the best candidate so far; `<` is strict, so the earliest
minimal entry wins. -/
def oldestFrom : String → Time → Sessions → String × Time
  | j, t, [] => (j, t)
  | j, t, p :: rest =>
    if p.2.lastAccess < t then oldestFrom p.1 p.2.lastAccess rest
    else oldestFrom j t rest

/-- `oldestJid` after the scan (`null`, i.e. `none`, on an empty map;
the initial `oldestTime = Infinity` makes the first entry the first
candidate). -/
def findOldest : Sessions → Option (String × Time)
  | [] => none
  | p :: rest => some (oldestFrom p.1 p.2.lastAccess rest)

/-- `_evictOldest()`. -/
def evictOldest (s : Sessions) : Sessions :=
  match findOldest s with
  | none => s
  | some (j, _) => if j = "" then s else jdelete s j

/-- `_getEntry(jid, contactProfile)`: returns the entry and the new map. -/
def getEntry (s : Sessions) (jid : String) (sysInstr : String) (now : Time) :
    SessionEntry × Sessions :=
  match jget s jid with
  | some e =>
    let e' := { e with lastAccess := now }
    (e', jset s jid e')
  | none =>
    let e : SessionEntry := ⟨[], now, 0, sysInstr⟩
    let s1 := jset s jid e
    (e, if MAX_SESSIONS < s1.length then evictOldest s1 else s1)

theorem oldestFrom_mem (j : String) (t : Time) (l : Sessions) :
    oldestFrom j t l = (j, t) ∨ ∃ p ∈ l, oldestFrom j t l = (p.1, p.2.lastAccess) := by
  induction l generalizing j t with
  | nil => exact Or.inl rfl
  | cons p rest ih =>
    simp only [oldestFrom]
    by_cases h : p.2.lastAccess < t
    · rw [if_pos h]
      rcases ih p.1 p.2.lastAccess with h1 | ⟨q, hq, h1⟩
      · exact Or.inr ⟨p, by simp, h1⟩
      · exact Or.inr ⟨q, by simp [hq], h1⟩
    · rw [if_neg h]
      rcases ih j t with h1 | ⟨q, hq, h1⟩
      · exact Or.inl h1
      · exact Or.inr ⟨q, by simp [hq], h1⟩

theorem oldestFrom_le (j : String) (t : Time) (l : Sessions) :
    (oldestFrom j t l).2 ≤ t ∧ ∀ p ∈ l, (oldestFrom j t l).2 ≤ p.2.lastAccess := by
  induction l generalizing j t with
  | nil => exact ⟨le_refl t, by simp⟩
  | cons p rest ih =>
    simp only [oldestFrom]
    by_cases h : p.2.lastAccess < t
    · rw [if_pos h]
      obtain ⟨h1, h2⟩ := ih p.1 p.2.lastAccess
      exact ⟨le_of_lt (lt_of_le_of_lt h1 h), by
        intro q hq
        rcases List.mem_cons.mp hq with hq | hq
        · rw [hq]
          exact h1
        · exact h2 q hq⟩
    · rw [if_neg h]
      obtain ⟨h1, h2⟩ := ih j t
      refine ⟨h1, ?_⟩
      intro q hq
      rcases List.mem_cons.mp hq with hq | hq
      · rw [hq]
        exact le_trans h1 (not_lt.mp h)
      · exact h2 q hq

theorem oldestFrom_append_ge (j : String) (t : Time) (l : Sessions)
    (q : String × SessionEntry) (h : (oldestFrom j t l).2 ≤ q.2.lastAccess) :
    oldestFrom j t (l ++ [q]) = oldestFrom j t l := by
  induction l generalizing j t with
  | nil =>
    simp only [oldestFrom, List.nil_append] at h ⊢
    rw [if_neg (not_lt.mpr h)]
  | cons p rest ih =>
    simp only [oldestFrom, List.cons_append] at h ⊢
    by_cases h0 : p.2.lastAccess < t
    · simp only [if_pos h0] at h ⊢
      exact ih p.1 p.2.lastAccess h
    · simp only [if_neg h0] at h ⊢
      exact ih j t h

theorem jset_length_mem {α : Type} (m : List (String × α)) (k : String) (v : α)
    (h : k ∈ jkeys m) : (jset m k v).length = m.length := by
  have h1 : (jkeys (jset m k v)).length = (jkeys m).length := by
    rw [jkeys_jset_mem m k v h]
  simpa [jkeys] using h1

theorem jget_mem {α : Type} (m : List (String × α)) (k : String) (v : α)
    (h : jget m k = some v) : k ∈ jkeys m := by
  by_contra hmem
  rw [(jget_eq_none_iff m k).mpr hmem] at h
  cases h

theorem findOldest_entry (p0 : String × SessionEntry) (rest : Sessions) :
    ∃ q ∈ p0 :: rest,
      oldestFrom p0.1 p0.2.lastAccess rest = (q.1, q.2.lastAccess) := by
  rcases oldestFrom_mem p0.1 p0.2.lastAccess rest with h | ⟨q, hq, h⟩
  · exact ⟨p0, by simp, h⟩
  · exact ⟨q, by simp [hq], h⟩

theorem evictOldest_length (m : Sessions) (hm : m ≠ [])
    (hne : ∀ k ∈ jkeys m, k ≠ "") : (evictOldest m).length + 1 = m.length := by
  cases m with
  | nil => exact absurd rfl hm
  | cons p0 rest =>
    obtain ⟨q, hq, hmin⟩ := findOldest_entry p0 rest
    have hq1 : q.1 ∈ jkeys (p0 :: rest) := List.mem_map_of_mem Prod.fst hq
    simp only [evictOldest, findOldest, hmin]
    rw [if_neg (hne q.1 hq1)]
    exact jdelete_length _ _ hq1

theorem getEntry_fresh (s : Sessions) (jid i : String) (t : Time)
    (h : jget s jid = none) : (getEntry s jid i t).1 = ⟨[], t, 0, i⟩ := by
  simp only [getEntry, h]

theorem evictOldest_nodup (m : Sessions) (h : (jkeys m).Nodup) :
    (jkeys (evictOldest m)).Nodup := by
  cases hf : findOldest m with
  | none => simpa [evictOldest, hf] using h
  | some jt =>
    obtain ⟨j, t⟩ := jt
    simp only [evictOldest, hf]
    by_cases hj : j = ""
    · rwa [if_pos hj]
    · rw [if_neg hj]
      exact h.sublist ((jdelete_sublist m j).map Prod.fst)

/-- C7: the session cache.  `_getEntry` preserves key uniqueness (at
most one live session per contact) and never lets the map exceed
`MAX_SESSIONS` (= 200) entries; when a 201st distinct contact arrives
at a full cache whose entries were all touched no later than `now`,
exactly one pre-existing entry with minimal `lastAccess` is evicted —
never the newly created one — the new contact's entry is present, the
evicted contact's entry is gone, and the evicted contact's next
`_getEntry` builds its entry with the freshly supplied system
instruction. -/
theorem chatSession_capacity (s : Sessions) (jid sysInstr : String) (now : Time) :
    ((jkeys s).Nodup → (jkeys (getEntry s jid sysInstr now).2).Nodup) ∧
    (s.length ≤ MAX_SESSIONS → (∀ k ∈ jkeys s, k ≠ "") → jid ≠ "" →
       (getEntry s jid sysInstr now).2.length ≤ MAX_SESSIONS) ∧
    ((jkeys s).Nodup → (∀ k ∈ jkeys s, k ≠ "") → jid ≠ "" → jid ∉ jkeys s →
       s.length = MAX_SESSIONS → (∀ p ∈ s, p.2.lastAccess ≤ now) →
       ∃ p ∈ s,
         (getEntry s jid sysInstr now).2
             = jdelete (s ++ [(jid, ⟨[], now, 0, sysInstr⟩)]) p.1 ∧
         (∀ q ∈ s, p.2.lastAccess ≤ q.2.lastAccess) ∧
         p.1 ≠ jid ∧
         (getEntry s jid sysInstr now).2.length = MAX_SESSIONS ∧
         jget (getEntry s jid sysInstr now).2 jid
             = some ⟨[], now, 0, sysInstr⟩ ∧
         jget (getEntry s jid sysInstr now).2 p.1 = none ∧
         ∀ i2 t2,
           (getEntry (getEntry s jid sysInstr now).2 p.1 i2 t2).1.systemInstruction
             = i2) := by
  refine ⟨?_, ?_, ?_⟩
  · -- key uniqueness is preserved
    intro hnd
    cases hjg : jget s jid with
    | some e =>
      have hmem : jid ∈ jkeys s := jget_mem s jid e hjg
      simp only [getEntry, hjg]
      rwa [jkeys_jset_mem s jid _ hmem]
    | none =>
      have hjid : jid ∉ jkeys s := (jget_eq_none_iff s jid).mp hjg
      have hs1 : jset s jid (⟨[], now, 0, sysInstr⟩ : SessionEntry)
          = s ++ [(jid, ⟨[], now, 0, sysInstr⟩)] := jset_eq_append _ _ _ hjg
      have hnd1 : (jkeys (s ++ [(jid, (⟨[], now, 0, sysInstr⟩ : SessionEntry))])).Nodup := by
        simp only [jkeys, List.map_append, List.map_cons, List.map_nil]
        rw [List.nodup_append]
        refine ⟨hnd, List.nodup_singleton _, ?_⟩
        intro a ha hb
        simp only [List.mem_singleton] at hb
        subst hb
        exact hjid ha
      simp only [getEntry, hjg, hs1]
      by_cases hcap : MAX_SESSIONS < (s ++ [(jid, (⟨[], now, 0, sysInstr⟩ : SessionEntry))]).length
      · rw [if_pos hcap]
        exact evictOldest_nodup _ hnd1
      · rwa [if_neg hcap]
  · -- the size bound is preserved
    intro hlen hne hjidne
    cases hjg : jget s jid with
    | some e =>
      have hmem : jid ∈ jkeys s := jget_mem s jid e hjg
      simp only [getEntry, hjg]
      rwa [jset_length_mem s jid _ hmem]
    | none =>
      have hs1 : jset s jid (⟨[], now, 0, sysInstr⟩ : SessionEntry)
          = s ++ [(jid, ⟨[], now, 0, sysInstr⟩)] := jset_eq_append _ _ _ hjg
      have hne1 : ∀ k ∈ jkeys (s ++ [(jid, (⟨[], now, 0, sysInstr⟩ : SessionEntry))]), k ≠ "" := by
        intro k hk
        simp only [jkeys, List.map_append, List.map_cons, List.map_nil,
          List.mem_append, List.mem_singleton] at hk
        rcases hk with hk | hk
        · exact hne k hk
        · rw [hk]; exact hjidne
      simp only [getEntry, hjg, hs1]
      by_cases hcap : MAX_SESSIONS < (s ++ [(jid, (⟨[], now, 0, sysInstr⟩ : SessionEntry))]).length
      · rw [if_pos hcap]
        have hev := evictOldest_length (s ++ [(jid, ⟨[], now, 0, sysInstr⟩)]) (by simp) hne1
        have hs1len : (s ++ [(jid, (⟨[], now, 0, sysInstr⟩ : SessionEntry))]).length
            = s.length + 1 := by simp
        omega
      · rw [if_neg hcap]
        omega
  · -- the 201st distinct contact evicts exactly the LRU entry
    intro hnd hne hjidne hjid hlen hla
    have hjg : jget s jid = none := (jget_eq_none_iff s jid).mpr hjid
    have hs1 : jset s jid (⟨[], now, 0, sysInstr⟩ : SessionEntry)
        = s ++ [(jid, ⟨[], now, 0, sysInstr⟩)] := jset_eq_append _ _ _ hjg
    cases s with
    | nil => simp [MAX_SESSIONS] at hlen
    | cons p0 srest =>
      obtain ⟨q, hq, hmin⟩ := findOldest_entry p0 srest
      have hq1keys : q.1 ∈ jkeys (p0 :: srest) := List.mem_map_of_mem Prod.fst hq
      have hq1jid : q.1 ≠ jid := fun hcontra => hjid (hcontra ▸ hq1keys)
      have hq1ne : q.1 ≠ "" := hne q.1 hq1keys
      have hofr2 : (oldestFrom p0.1 p0.2.lastAccess srest).2 ≤ now := by
        rw [hmin]
        exact hla q hq
      have happ : oldestFrom p0.1 p0.2.lastAccess
            (srest ++ [(jid, (⟨[], now, 0, sysInstr⟩ : SessionEntry))])
          = (q.1, q.2.lastAccess) :=
        (oldestFrom_append_ge p0.1 p0.2.lastAccess srest _ hofr2).trans hmin
      have hcap : MAX_SESSIONS
          < ((p0 :: srest) ++ [(jid, (⟨[], now, 0, sysInstr⟩ : SessionEntry))]).length := by
        rw [List.length_append, hlen]
        exact Nat.lt_succ_self _
      have hget : (getEntry (p0 :: srest) jid sysInstr now).2
          = evictOldest ((p0 :: srest) ++ [(jid, ⟨[], now, 0, sysInstr⟩)]) := by
        simp only [getEntry, hjg, hs1]
        rw [if_pos hcap]
      have hev : evictOldest ((p0 :: srest) ++ [(jid, ⟨[], now, 0, sysInstr⟩)])
          = jdelete ((p0 :: srest) ++ [(jid, ⟨[], now, 0, sysInstr⟩)]) q.1 := by
        simp only [List.cons_append, evictOldest, findOldest, happ]
        rw [if_neg hq1ne]
      have hres : (getEntry (p0 :: srest) jid sysInstr now).2
          = jdelete ((p0 :: srest) ++ [(jid, ⟨[], now, 0, sysInstr⟩)]) q.1 :=
        hget.trans hev
      have hq1keys1 : q.1 ∈ jkeys ((p0 :: srest) ++ [(jid, (⟨[], now, 0, sysInstr⟩ : SessionEntry))]) := by
        simp only [jkeys, List.map_append]
        exact List.mem_append_left _ hq1keys
      have hnd1 : (jkeys ((p0 :: srest) ++ [(jid, (⟨[], now, 0, sysInstr⟩ : SessionEntry))])).Nodup := by
        simp only [jkeys, List.map_append, List.map_cons, List.map_nil]
        rw [List.nodup_append]
        refine ⟨hnd, List.nodup_singleton _, ?_⟩
        intro a ha hb
        simp only [List.mem_singleton] at hb
        subst hb
        exact hjid ha
      have hgq : jget ((getEntry (p0 :: srest) jid sysInstr now).2) q.1 = none := by
        rw [hres]
        exact jget_jdelete_self _ _ hnd1
      refine ⟨q, hq, hres, ?_, hq1jid, ?_, ?_, hgq, ?_⟩
      · -- minimality of the evicted lastAccess
        intro r hr
        have hle := oldestFrom_le p0.1 p0.2.lastAccess srest
        have h2 : (oldestFrom p0.1 p0.2.lastAccess srest).2 = q.2.lastAccess := by
          rw [hmin]
        rcases List.mem_cons.mp hr with hr | hr
        · rw [hr, ← h2]
          exact hle.1
        · rw [← h2]
          exact hle.2 r hr
      · -- resulting size is exactly MAX_SESSIONS
        rw [hres]
        have hdl := jdelete_length _ _ hq1keys1
        have : ((p0 :: srest) ++ [(jid, (⟨[], now, 0, sysInstr⟩ : SessionEntry))]).length
            = (p0 :: srest).length + 1 := by simp
        omega
      · -- the new contact's entry is present
        rw [hres, jget_jdelete_ne _ _ _ hq1jid, jget_append_right _ _ _ hjg]
        simp [jget]
      · -- the evicted contact's next getEntry rebuilds a fresh instruction
        intro i2 t2
        rw [getEntry_fresh _ _ _ _ hgq]

set_option maxRecDepth 8000

/-- A concrete full cache: 200 sessions keyed by distinct single
printable characters, entry `i` last accessed at time `i`. -/
def fullSessions : Sessions :=
  (List.range 200).map
    (fun i => (String.mk [Char.ofNat (33 + i)], ⟨[], (i : Int), 0, "sys"⟩))

/-- C7 witness: creating a session for a 201st distinct contact on the
full 200-session cache keeps the size at 200, keeps the new session,
and the evicted contact's next lookup is built with the fresh
instruction. -/
theorem chatSession_capacity_witness :
    (getEntry fullSessions "zz" "sys-new" 1000000).2.length = MAX_SESSIONS ∧
    jget (getEntry fullSessions "zz" "sys-new" 1000000).2 "zz"
      = some ⟨[], 1000000, 0, "sys-new"⟩ ∧
    (jkeys (getEntry fullSessions "zz" "sys-new" 1000000).2).Nodup := by
  obtain ⟨p, hp, _, _, _, hlen, hnew, hgone, hfresh⟩ :=
    (chatSession_capacity fullSessions "zz" "sys-new" 1000000).2.2
      (by decide) (by decide) (by decide) (by decide) (by decide) (by decide)
  refine ⟨hlen, hnew, ?_⟩
  exact (chatSession_capacity fullSessions "zz" "sys-new" 1000000).1 (by decide)

/-! ## Follow-ups: `follow-ups.repo.js` + the `getReminders` sweep

The `follow_ups` table row (relevant columns; `reminded_count` has SQL
default 0).  `listOverdue` selects `status IN ('pending','reminded')
AND due_at <= now`; the sweep (`getReminders` in the follow-up
tracker) reminds an overdue row while `reminded_count < 3`
(`markReminded`: `status = 'reminded', reminded_count + 1`) and
force-expires it otherwise (`expire`: `status = 'expired'`). -/

inductive FUStatus
  | pending
  | reminded
  | resolved
  | expired
deriving Repr, DecidableEq

structure FollowUp where
  jid : String
  description : String
  dueAt : Time
  priority : Int
  status : FUStatus
  remindedCount : Nat
deriving Repr, DecidableEq

/-- `listOverdue` row test. -/
def isOverdue (f : FollowUp) (now : Time) : Bool :=
  decide ((f.status = FUStatus.pending ∨ f.status = FUStatus.reminded) ∧ f.dueAt ≤ now)

/-- `markReminded(id)`. -/
def markReminded (f : FollowUp) : FollowUp :=
  { f with status := FUStatus.reminded, remindedCount := f.remindedCount + 1 }

/-- `expire(id)`. -/
def expireFollowUp (f : FollowUp) : FollowUp := { f with status := FUStatus.expired }

/-- The action of one `getReminders` sweep on a single row; `true` means
the row was returned as a reminder. -/
def getRemindersStep (f : FollowUp) (now : Time) : FollowUp × Bool :=
  if isOverdue f now then
    if f.remindedCount < 3 then (markReminded f, true) else (expireFollowUp f, false)
  else (f, false)

/-- C9: `remindedCount` never exceeds 3.  A sweep preserves the bound
`remindedCount ≤ 3`; an overdue row below 3 is reminded (status
`reminded`, count incremented); an overdue row that has reached 3 is
expired instead of being reminded a 4th time (status `expired`, count
unchanged, not returned as a reminder). -/
theorem followUp_reminder_bound (f : FollowUp) (now : Time) :
    (f.remindedCount ≤ 3 → (getRemindersStep f now).1.remindedCount ≤ 3) ∧
    (isOverdue f now = true → f.remindedCount < 3 →
       getRemindersStep f now = (markReminded f, true) ∧
       (getRemindersStep f now).1.remindedCount = f.remindedCount + 1 ∧
       (getRemindersStep f now).1.status = FUStatus.reminded) ∧
    (isOverdue f now = true → 3 ≤ f.remindedCount →
       getRemindersStep f now = (expireFollowUp f, false) ∧
       (getRemindersStep f now).1.status = FUStatus.expired ∧
       (getRemindersStep f now).1.remindedCount = f.remindedCount) ∧
    (isOverdue f now = false → getRemindersStep f now = (f, false)) := by
  refine ⟨?_, ?_, ?_, ?_⟩
  · intro hb
    by_cases ho : isOverdue f now = true
    · by_cases hc : f.remindedCount < 3
      · simp [getRemindersStep, ho, hc, markReminded]
        omega
      · simp [getRemindersStep, ho, hc, expireFollowUp]
        exact hb
    · simp [getRemindersStep, ho]
      exact hb
  · intro ho hc
    simp [getRemindersStep, ho, hc, markReminded]
  · intro ho hc
    have hc' : ¬ f.remindedCount < 3 := not_lt.mpr hc
    simp [getRemindersStep, ho, hc', expireFollowUp]
  · intro ho
    simp [getRemindersStep, ho]

/-- C9 witness: an overdue row with count 2 is reminded and reaches 3;
an overdue row with count 3 is expired with count unchanged. -/
theorem followUp_reminder_bound_witness :
    (getRemindersStep ⟨"c", "call back", 50, 2, FUStatus.reminded, 2⟩ 100).1.remindedCount = 3 ∧
    (getRemindersStep ⟨"c", "call back", 50, 2, FUStatus.reminded, 3⟩ 100).1.status
      = FUStatus.expired ∧
    (getRemindersStep ⟨"c", "call back", 50, 2, FUStatus.reminded, 3⟩ 100).1.remindedCount = 3 := by
  have h1 := (followUp_reminder_bound ⟨"c", "call back", 50, 2, FUStatus.reminded, 2⟩ 100).2.1
    (by decide) (by decide)
  have h2 := (followUp_reminder_bound ⟨"c", "call back", 50, 2, FUStatus.reminded, 3⟩ 100).2.2.1
    (by decide) (by decide)
  exact ⟨h1.2.1, h2.2.1, h2.2.2⟩

/-! ## The message router (`handleInbound`, `_routeAndReply`,
`handleOwnerMessage`) and `src/safety/message-filter.js`

External collaborators — the bot detector's verdict (regex
heuristics), the AI analysis (`intentDetector.analyze`), the produced
reply texts, the repositories — appear as a `RouterEnv` of values the
router reads; everything the router itself does (gate order, state
updates, what it sends/persists) is embedded.  Side effects are
recorded as an `Effect` trace.  Because the AI call suspends, the
owner-activity map consulted by the final pre-send check is a separate
snapshot `activityAtSend` at time `nowAtSend`. -/

structure Msg where
  jid : String
  text : String
  contentType : String
  pushName : Option String
  isGroup : Bool
  isFromMe : Bool
  hasMedia : Bool
  timestamp : Time
deriving Repr, DecidableEq

structure FilterResult where
  pass : Bool
  reason : Option String
deriving Repr, DecidableEq

def oldMessageThresholdSec : Time := 60

/-- `messageFilter.filter(msg)`; `nowSec` is `Math.floor(Date.now() / 1000)`.
`msg.timestamp || now` treats a falsy (0) timestamp as `now`. -/
def messageFilter (msg : Msg) (nowSec : Time) : FilterResult :=
  if msg.isGroup = true then ⟨false, some "group_message"⟩
  else if (msg.text = "" ∨ jsTrim msg.text = "") ∧ msg.hasMedia = false then
    ⟨false, some "empty_message"⟩
  else if oldMessageThresholdSec
      < nowSec - (if msg.timestamp = 0 then nowSec else msg.timestamp) then
    ⟨false, some "stale_message"⟩
  else if msg.jid = "status@broadcast" then ⟨false, some "status_broadcast"⟩
  else if msg.isFromMe = true then ⟨false, some "own_message"⟩
  else ⟨true, none⟩

inductive Effect
  | insertMsg (jid direction content contentType : String)
      (intent mood : Option String) (isAiGenerated : Bool)
  | upsertContact (jid : String)
  | aiAnalyze (text : String)
  | updateMood (jid mood : String)
  | moodAlert (jid mood : String)
  | emitCommand (jid : String)
  | aiGenerate (jid : String)
  | scheduleHandle (jid : String)
  | simulateTyping (jid : String)
  | send (jid text : String)
  | rateRecord (jid : String)
  | followUpAnalyze (jid reply : String)
  | n8nForward (jid : String)
  | learnFromOwner (jid text : String)
deriving Repr, DecidableEq

structure Contact where
  jid : String
  displayName : Option String
  autoReplyEnabled : Int
deriving Repr, DecidableEq

/-- Result of `intentDetector.analyze` (an AI collaborator). -/
structure Analysis where
  intent : String
  confidence : Rat
  language : String
  mood : String
  moodIntensity : Rat
deriving Repr, DecidableEq

/-- Result of `botDetector.check` (regex heuristics, external here). -/
structure BotCheck where
  isBot : Bool
  confidence : Rat
deriving Repr, DecidableEq

/-- `moodDetector.isAlertWorthy(mood, intensity)`. -/
def isAlertWorthy (mood : String) (intensity : Rat) : Bool :=
  decide (mood ∈ ["angry", "frustrated", "urgent", "sad", "anxious"]
    ∧ (7 : Rat)/10 ≤ intensity)

structure RouterEnv where
  botCheck : BotCheck
  analysis : Analysis
  contact : Contact
  aiReply : String
  scheduleReply : String
  kbAnswers : List String
  quotaExhausted : Bool
  n8nConfigured : Bool
  activityAtSend : Activity
  nowAtSend : Time
deriving Repr, DecidableEq

structure RouterState where
  loop : List (String × LoopEntry)
  rate : List (String × List Time)
  activity : Activity
deriving Repr, DecidableEq

def GREETING_QUOTA_REPLY : String :=
  "Hello! Friday here. I'm currently running in low-power mode because my owner didn' gave me enough food, but Bhuwan will be back soon to chat with you properly! 😊"

/-- The `switch (intentResult.intent)` of `_routeAndReply` for the
non-command intents: the pre-send effects (AI/schedule calls) and the
reply text. -/
def routeBranch (msg : Msg) (env : RouterEnv) : List Effect × String :=
  if env.analysis.intent = "greeting" then
    if env.quotaExhausted = true then ([], GREETING_QUOTA_REPLY)
    else ([Effect.aiGenerate msg.jid], env.aiReply)
  else if env.analysis.intent = "schedule" then
    ([Effect.scheduleHandle msg.jid], env.scheduleReply)
  else if env.analysis.intent = "knowledge" then
    match env.kbAnswers with
    | a :: _ => ([], a)
    | [] => ([Effect.aiGenerate msg.jid], env.aiReply)
  else ([Effect.aiGenerate msg.jid], env.aiReply)

/-- `_routeAndReply(msg, contact, intentResult, moodResult)`: command
hand-off, reply production, the empty-reply guard, the final
owner-interjection re-check, and the send/persist/rate-record/
follow-up/n8n tail. -/
def routeAndReply (msg : Msg) (env : RouterEnv) : List Effect × Activity :=
  if env.analysis.intent = "command" then
    ([Effect.emitCommand msg.jid], env.activityAtSend)
  else
    let br := routeBranch msg env
    if jsTrim br.2 = "" then (br.1, env.activityAtSend)
    else
      let ia := isOwnerActive env.activityAtSend msg.jid env.nowAtSend
      if ia.1 = true then (br.1, ia.2)
      else
        (br.1 ++
          [Effect.simulateTyping msg.jid,
           Effect.send msg.jid br.2,
           Effect.insertMsg msg.jid "outbound" br.2 "text"
             (some env.analysis.intent) none true,
           Effect.rateRecord msg.jid,
           Effect.followUpAnalyze msg.jid br.2] ++
          (if env.n8nConfigured then [Effect.n8nForward msg.jid] else []),
         ia.2)

/-- `handleInbound(msg)`: the gate chain in source order (filter → bot →
loop → rate → upsert → analyze → persist inbound → mood update →
auto-reply-disabled → owner-active → mood alert → route).  Returns the
effect trace and the updated per-contact safety state. -/
def handleInbound (st : RouterState) (msg : Msg) (now nowSec : Time)
    (env : RouterEnv) : List Effect × RouterState :=
  if (messageFilter msg nowSec).pass = false then ([], st)
  else if env.botCheck.isBot = true ∧ (7 : Rat)/10 ≤ env.botCheck.confidence then
    ([Effect.insertMsg msg.jid "inbound" msg.text msg.contentType none none false], st)
  else
    let lc := loopCheck ((jget st.loop msg.jid).getD ⟨[], 0⟩) msg.text now
      loopDetectThreshold haltDurationMs
    let st1 : RouterState := { st with loop := jset st.loop msg.jid lc.2 }
    if lc.1.isHalted = true then ([], st1)
    else
      let rc := rateCheck ((jget st1.rate msg.jid).getD []) now
      let st2 : RouterState := { st1 with rate := jset st1.rate msg.jid rc.2 }
      if rc.1.allowed = false then ([], st2)
      else
        let effs :=
          [Effect.upsertContact msg.jid, Effect.aiAnalyze msg.text,
           Effect.insertMsg msg.jid "inbound" msg.text msg.contentType
             (some env.analysis.intent) (some env.analysis.mood) false] ++
          (if env.analysis.mood ≠ "neutral" then
            [Effect.updateMood msg.jid env.analysis.mood] else [])
        if env.contact.autoReplyEnabled = 0 then (effs, st2)
        else
          let ia := isOwnerActive st2.activity msg.jid now
          let st3 : RouterState := { st2 with activity := ia.2 }
          if ia.1 = true then (effs, st3)
          else
            let effs := effs ++
              (if isAlertWorthy env.analysis.mood env.analysis.moodIntensity then
                [Effect.moodAlert msg.jid env.analysis.mood] else [])
            let rr := routeAndReply msg env
            (effs ++ rr.1, { st3 with activity := rr.2 })

/-- The `catch` block of `handleInbound` (error taxonomy). -/
structure JsError where
  name : String
  status : Option Int
deriving Repr, DecidableEq

/-- `err.name === 'QuotaError' || err.status === 429 || err.status === 404`. -/
def isAiError (e : JsError) : Bool :=
  decide (e.name = "QuotaError" ∨ e.status = some 429 ∨ e.status = some 404)

def FALLBACK_MESSAGES : List String :=
  ["Hey! I'm taking a short break right now. Bhuwan will get back to you soon! 😊",
   "Hi there! My brain is recharging at the moment. Bhuwan will reply shortly! ⚡",
   "Hey! I'm temporarily unavailable, but Bhuwan will catch up with you soon! 🙏"]

/-- The catch handler: on an AI-quota/AI-unavailable error (with a
truthy jid) send a random canned fallback and record it as a normal
outbound message; any other error is logged and dropped.  `randIdx` is
`Math.floor(Math.random() * FALLBACK_MESSAGES.length)`. -/
def handleInboundError (e : JsError) (jid : String) (randIdx : Nat) : List Effect :=
  if isAiError e = true ∧ jid ≠ "" then
    let fallback := FALLBACK_MESSAGES.getD randIdx ""
    [Effect.send jid fallback,
     Effect.insertMsg jid "outbound" fallback "text" none none false]
  else []

/-- `text.startsWith(c)` for a single-character prefix. -/
def jsStartsWith (s : String) (c : Char) : Bool :=
  match s.data with
  | [] => false
  | c' :: _ => c' = c

/-- `handleOwnerMessage(msg)`: ignore missing-jid/group events, upsert
the contact, mark the owner active (`recordOwnerReply`) and only then
check the `!`/`/` command prefix; non-commands are stored as
`owner_manual` and fed to the learning engine. -/
def handleOwnerMessage (act : Activity) (msg : Msg) (now : Time) :
    List Effect × Activity :=
  if msg.jid = "" ∨ msg.isGroup = true then ([], act)
  else
    let act1 := recordOwnerReply act msg.jid now
    if msg.text ≠ "" ∧ (jsStartsWith msg.text '!' = true ∨ jsStartsWith msg.text '/' = true) then
      ([Effect.upsertContact msg.jid, Effect.emitCommand msg.jid], act1)
    else
      ([Effect.upsertContact msg.jid,
        Effect.insertMsg msg.jid "owner_manual" msg.text
          (if msg.contentType = "" then "text" else msg.contentType) none none false,
        Effect.learnFromOwner msg.jid msg.text], act1)

/-! ### Router theorems -/

theorem loopCheck_halted_eq (entry : LoopEntry) (text : String) (now : Time)
    (threshold : Nat) (haltDur : Time) (h : now < entry.haltedUntil) :
    loopCheck entry text now threshold haltDur
      = (⟨true, true, some (entry.haltedUntil - now)⟩, entry) := by
  simp only [loopCheck, if_pos h]

/-- C1 (amended): while a contact is halted, the gate at step 3
returns before anything else happens: no AI call, no reply, and no
persistence either — the effect trace is empty and only the loop map
is (idempotently) written back; rate and activity state are untouched.
(The claim's "message is still persisted" clause is refuted by
`router_halted_claim_counterexample`: only the bot-detection branch
persists before an early return; the halted branch does not.) -/
theorem router_halted_suppression (st : RouterState) (msg : Msg) (now nowSec : Time)
    (env : RouterEnv)
    (hf : (messageFilter msg nowSec).pass = true)
    (hb : ¬ (env.botCheck.isBot = true ∧ (7 : Rat)/10 ≤ env.botCheck.confidence))
    (hh : now < ((jget st.loop msg.jid).getD ⟨[], 0⟩).haltedUntil) :
    (handleInbound st msg now nowSec env).1 = [] ∧
    (handleInbound st msg now nowSec env).2.rate = st.rate ∧
    (handleInbound st msg now nowSec env).2.activity = st.activity ∧
    (handleInbound st msg now nowSec env).2.loop
      = jset st.loop msg.jid ((jget st.loop msg.jid).getD ⟨[], 0⟩) := by
  have hf' : ¬ (messageFilter msg nowSec).pass = false := by
    rw [hf]
    simp
  have hlc := loopCheck_halted_eq ((jget st.loop msg.jid).getD ⟨[], 0⟩) msg.text now
    loopDetectThreshold haltDurationMs hh
  simp only [handleInbound, if_neg hf', if_neg hb, hlc]
  simp

def haltedState : RouterState := ⟨[("c@s", ⟨["spam"], 5000⟩)], [], []⟩
def haltedMsg : Msg := ⟨"c@s", "hello there", "text", none, false, false, false, 1⟩
def plainEnv : RouterEnv :=
  ⟨⟨false, 0⟩, ⟨"general", 1, "en", "neutral", (1 : Rat)/2⟩, ⟨"c@s", none, 1⟩,
   "sure!", "", [], false, false, [], 1000⟩

/-- C1 counterexample to the claim as stated: a concrete inbound
message that passes the filter and bot gates while the contact is
halted (`haltedUntil = 5000 > now = 1000`) produces an empty effect
trace — in particular the message is NOT persisted as an inbound
message, contradicting the claim's "still persisted" clause. -/
theorem router_halted_claim_counterexample :
    (messageFilter haltedMsg 1).pass = true ∧
    (1000 : Int) < ((jget haltedState.loop haltedMsg.jid).getD ⟨[], 0⟩).haltedUntil ∧
    (handleInbound haltedState haltedMsg 1000 1 plainEnv).1 = [] := by
  refine ⟨by decide, by decide, ?_⟩
  exact (router_halted_suppression haltedState haltedMsg 1000 1 plainEnv
    (by decide) (by decide) (by decide)).1

/-- C1 witness (for the amended theorem). -/
theorem router_halted_suppression_witness :
    (handleInbound haltedState haltedMsg 1000 1 plainEnv).1 = [] ∧
    (handleInbound haltedState haltedMsg 1000 1 plainEnv).2.rate = [] ∧
    (handleInbound haltedState haltedMsg 1000 1 plainEnv).2.activity = [] := by
  have h := router_halted_suppression haltedState haltedMsg 1000 1 plainEnv
    (by decide) (by decide) (by decide)
  exact ⟨h.1, h.2.1, h.2.2.1⟩

/-- Effects that deliver or account for a reply. -/
def isDelivery : Effect → Bool
  | Effect.send _ _ => true
  | Effect.insertMsg _ _ _ _ _ _ _ => true
  | Effect.rateRecord _ => true
  | _ => false

theorem routeBranch_no_delivery (msg : Msg) (env : RouterEnv) :
    ∀ e ∈ (routeBranch msg env).1, isDelivery e = false := by
  intro e he
  unfold routeBranch at he
  split_ifs at he
  · simp at he
  · simp at he
    subst he
    rfl
  · simp at he
    subst he
    rfl
  · cases hk : env.kbAnswers with
    | nil =>
      rw [hk] at he
      simp at he
      subst he
      rfl
    | cons a rest =>
      rw [hk] at he
      simp at he
  · simp at he
    subst he
    rfl

/-- C2: the final interjection re-check.  If the Offline Tracker
reports the owner active at the moment `_routeAndReply` is about to
send (the `activityAtSend`/`nowAtSend` snapshot, taken after the AI
call), the reply is dropped silently: the effect trace contains no
send, no outbound persist and no rate-record. -/
theorem router_final_interjection (msg : Msg) (env : RouterEnv)
    (hact : (isOwnerActive env.activityAtSend msg.jid env.nowAtSend).1 = true) :
    ∀ e ∈ (routeAndReply msg env).1, isDelivery e = false := by
  intro e he
  simp only [routeAndReply] at he
  split_ifs at he with h1 h2
  · simp at he
    subst he
    rfl
  · exact routeBranch_no_delivery msg env e he
  · exact routeBranch_no_delivery msg env e he

def interjMsg : Msg := ⟨"c@s", "how are you", "text", none, false, false, false, 1⟩
def interjEnv : RouterEnv :=
  ⟨⟨false, 0⟩, ⟨"general", 1, "en", "neutral", (1 : Rat)/2⟩, ⟨"c@s", none, 1⟩,
   "fine, thanks!", "", [], false, true, [("c@s", 900)], 1000⟩

/-- C2 witness: the owner touched the chat at 900 and the send gate
runs at 1000 (inside the cooldown), so the generated reply produces no
delivery effect. -/
theorem router_final_interjection_witness :
    (routeAndReply interjMsg interjEnv).1.all (fun e => !isDelivery e) = true := by
  rw [List.all_eq_true]
  intro e he
  have h := router_final_interjection interjMsg interjEnv (by decide) e he
  simp [h]

theorem getD_mem {α : Type} (l : List α) (n : Nat) (d : α) (h : n < l.length) :
    l.getD n d ∈ l := by
  induction l generalizing n with
  | nil => simp at h
  | cons a t ih =>
    cases n with
    | zero => simp [List.getD]
    | succ m =>
      have hm := ih m (by simpa using h)
      simp only [List.getD] at hm ⊢
      simp only [List.get?_cons_succ]
      exact List.mem_cons_of_mem a hm

/-- C8: the catch handler of `handleInbound`.  An AI-quota or
AI-unavailable error (`QuotaError` name, HTTP 429 or 404) with a
truthy jid makes the router send one of the fixed canned fallback
messages and record it as a normal outbound message
(`is_ai_generated = false`), without propagating the error (the
handler returns normally); every other error produces no effect at all
(logged and dropped, no reply, no retry). -/
theorem router_error_fallback (e : JsError) (jid : String) (randIdx : Nat) :
    (isAiError e = true → jid ≠ "" → randIdx < FALLBACK_MESSAGES.length →
       ∃ fb ∈ FALLBACK_MESSAGES,
         handleInboundError e jid randIdx
           = [Effect.send jid fb,
              Effect.insertMsg jid "outbound" fb "text" none none false]) ∧
    (isAiError e = false → handleInboundError e jid randIdx = []) ∧
    (isAiError e = true ↔
       (e.name = "QuotaError" ∨ e.status = some 429 ∨ e.status = some 404)) := by
  refine ⟨?_, ?_, ?_⟩
  · intro hai hjid hidx
    refine ⟨FALLBACK_MESSAGES.getD randIdx "", getD_mem _ _ _ hidx, ?_⟩
    simp only [handleInboundError]
    rw [if_pos ⟨hai, hjid⟩]
  · intro hai
    have hneg : ¬ (isAiError e = true ∧ jid ≠ "") := by
      intro hc
      rw [hai] at hc
      exact Bool.false_ne_true hc.1
    simp only [handleInboundError]
    rw [if_neg hneg]
  · simp [isAiError]

/-- C8 witness: a `QuotaError` yields exactly one canned fallback sent
and recorded as a non-AI outbound message; a generic `TypeError` (and
a 500 status) yields no effects. -/
theorem router_error_fallback_witness :
    (∃ fb ∈ FALLBACK_MESSAGES,
       handleInboundError ⟨"QuotaError", none⟩ "c@s" 1
         = [Effect.send "c@s" fb,
            Effect.insertMsg "c@s" "outbound" fb "text" none none false]) ∧
    handleInboundError ⟨"TypeError", some 500⟩ "c@s" 1 = [] := by
  refine ⟨(router_error_fallback ⟨"QuotaError", none⟩ "c@s" 1).1
    (by decide) (by decide) (by decide), ?_⟩
  exact (router_error_fallback ⟨"TypeError", some 500⟩ "c@s" 1).2.1 (by decide)

/-- C10: `handleOwnerMessage` records the owner-activity anchor
(`recordOwnerReply`, anchor = now) for every non-group owner message
with a jid BEFORE the `!`/`/` command-prefix check, so even an owner
command suppresses auto-reply for that contact for the full cooldown
window: afterwards the anchor equals `now` and `isOwnerActive` holds at
every instant `t` with `t - now < COOLDOWN_MS`; a command-prefixed
message produces only the contact upsert and the command hand-off. -/
theorem owner_command_pauses (act : Activity) (msg : Msg) (now : Time)
    (hjid : msg.jid ≠ "") (hgr : msg.isGroup = false) (hnow : now ≠ 0) :
    jget (handleOwnerMessage act msg now).2 msg.jid = some now ∧
    (∀ t, t - now < COOLDOWN_MS →
       (isOwnerActive (handleOwnerMessage act msg now).2 msg.jid t).1 = true) ∧
    ((msg.text ≠ "" ∧ (jsStartsWith msg.text '!' = true ∨ jsStartsWith msg.text '/' = true)) →
       (handleOwnerMessage act msg now).1
         = [Effect.upsertContact msg.jid, Effect.emitCommand msg.jid]) := by
  have hcond : ¬ (msg.jid = "" ∨ msg.isGroup = true) := by
    simp [hjid, hgr]
  have hact2 : (handleOwnerMessage act msg now).2 = recordOwnerReply act msg.jid now := by
    simp only [handleOwnerMessage]
    rw [if_neg hcond]
    split_ifs <;> rfl
  have hg : jget (handleOwnerMessage act msg now).2 msg.jid = some now := by
    rw [hact2]
    exact jget_jset_self act msg.jid now
  refine ⟨hg, ?_, ?_⟩
  · intro t ht
    simp only [isOwnerActive, hg]
    simp [hnow, ht]
  · intro hcmd
    simp only [handleOwnerMessage]
    rw [if_neg hcond, if_pos hcmd]

/-- C10 witness: an owner command `!help` at `now = 500` sets the
anchor to 500, keeps the owner active at `t = 600`, and is handed off
as a command. -/
theorem owner_command_pauses_witness :
    jget (handleOwnerMessage [] ⟨"c@s", "!help", "text", none, false, true, false, 0⟩ 500).2 "c@s"
      = some 500 ∧
    (isOwnerActive (handleOwnerMessage [] ⟨"c@s", "!help", "text", none, false, true, false, 0⟩ 500).2
      "c@s" 600).1 = true ∧
    (handleOwnerMessage [] ⟨"c@s", "!help", "text", none, false, true, false, 0⟩ 500).1
      = [Effect.upsertContact "c@s", Effect.emitCommand "c@s"] := by
  have h := owner_command_pauses [] ⟨"c@s", "!help", "text", none, false, true, false, 0⟩ 500
    (by decide) (by decide) (by decide)
  exact ⟨h.1, h.2.1 600 (by decide), h.2.2 (by decide)⟩

/-! ## The resume sweep (`_startResumeChecker`)

Every 30 s the router scans `offlineAssistant.getAllActivity()` (the
live map).  For each tracked jid whose cooldown has expired
(`!isOwnerActive(jid)`, which also lazily deletes the expired entry),
it fetches the most recent stored message (`messagesRepo.getRecent(jid,
1)`); if that message is inbound and the contact exists with
`auto_reply_enabled !== 0`, it re-runs `_routeAndReply` on a
pseudo-message, and in every expired case ends with
`activityMap.delete(jid)`.  The sweep returns the new activity map and
the list of jids for which the routing logic was invoked. -/

structure StoredMsg where
  direction : String
  content : String
  contentType : Option String
  intent : Option String
  mood : Option String
deriving Repr, DecidableEq

abbrev MsgsDb := List (String × List StoredMsg)
abbrev ContactsDb := List (String × Contact)

/-- `messagesRepo.getRecent(jid, 1)[0]` (messages stored most recent
first). -/
def getRecent1 (db : MsgsDb) (jid : String) : Option StoredMsg :=
  ((jget db jid).getD []).head?

/-- The sweep's invocation condition: last message exists, is inbound,
and the contact exists with auto-reply enabled. -/
def resumeEligible (msgs : MsgsDb) (contacts : ContactsDb) (jid : String) : Bool :=
  match getRecent1 msgs jid with
  | some lastMsg =>
    if lastMsg.direction = "inbound" then
      match jget contacts jid with
      | some c => decide (c.autoReplyEnabled ≠ 0)
      | none => false
    else false
  | none => false

/-- The loop body for one tracked jid: skip while still active;
otherwise invoke the routing logic when eligible and delete the entry.
Returns the new map and the routing invocations ([] or [jid]). -/
def resumeSweepStep (a : Activity) (k : String) (msgs : MsgsDb)
    (contacts : ContactsDb) (now : Time) : Activity × List String :=
  let ia := isOwnerActive a k now
  if ia.1 = true then (ia.2, [])
  else (jdelete ia.2 k, if resumeEligible msgs contacts k then [k] else [])

def resumeFoldStep (msgs : MsgsDb) (contacts : ContactsDb) (now : Time)
    (acc : Activity × List String) (k : String) : Activity × List String :=
  let r := resumeSweepStep acc.1 k msgs contacts now
  (r.1, acc.2 ++ r.2)

/-- One full sweep over the tracked keys. -/
def resumeSweep (act : Activity) (msgs : MsgsDb) (contacts : ContactsDb)
    (now : Time) : Activity × List String :=
  (jkeys act).foldl (resumeFoldStep msgs contacts now) (act, [])

theorem isOwnerActive_snd_cases (m : Activity) (k : String) (t : Time) :
    (isOwnerActive m k t).2 = m ∨ (isOwnerActive m k t).2 = jdelete m k := by
  cases h : jget m k with
  | none =>
    left
    simp [isOwnerActive, h]
  | some v =>
    simp only [isOwnerActive, h]
    split_ifs <;> simp

theorem jget_isOwnerActive_other (m : Activity) (k jid : String) (t : Time)
    (h : k ≠ jid) : jget (isOwnerActive m k t).2 jid = jget m jid := by
  rcases isOwnerActive_snd_cases m k t with h2 | h2
  · rw [h2]
  · rw [h2]
    exact jget_jdelete_ne m k jid h

theorem isOwnerActive_snd_sublist (m : Activity) (k : String) (t : Time) :
    (isOwnerActive m k t).2.Sublist m := by
  rcases isOwnerActive_snd_cases m k t with h | h
  · rw [h]
  · rw [h]
    exact jdelete_sublist m k

theorem isOwnerActive_fst_congr (m m' : Activity) (jid : String) (t : Time)
    (h : jget m jid = jget m' jid) :
    (isOwnerActive m jid t).1 = (isOwnerActive m' jid t).1 := by
  cases hj : jget m' jid with
  | none =>
    rw [hj] at h
    simp [isOwnerActive, h, hj]
  | some v =>
    rw [hj] at h
    simp only [isOwnerActive, h, hj]
    split_ifs <;> rfl

theorem isOwnerActive_true_snd (m : Activity) (jid : String) (t : Time)
    (h : (isOwnerActive m jid t).1 = true) : (isOwnerActive m jid t).2 = m := by
  cases hj : jget m jid with
  | none => simp [isOwnerActive, hj] at h
  | some v =>
    simp only [isOwnerActive, hj] at h ⊢
    split_ifs at h ⊢ <;> simp_all

theorem resumeSweepStep_other (a : Activity) (k jid : String) (msgs : MsgsDb)
    (contacts : ContactsDb) (now : Time) (h : k ≠ jid) :
    jget (resumeSweepStep a k msgs contacts now).1 jid = jget a jid ∧
    (resumeSweepStep a k msgs contacts now).2.count jid = 0 := by
  simp only [resumeSweepStep]
  split_ifs with h1 h2
  · exact ⟨jget_isOwnerActive_other a k jid now h, by simp⟩
  · refine ⟨?_, ?_⟩
    · rw [jget_jdelete_ne _ _ _ h]
      exact jget_isOwnerActive_other a k jid now h
    · simp [List.count_cons, Ne.symm h]
  · refine ⟨?_, by simp⟩
    rw [jget_jdelete_ne _ _ _ h]
    exact jget_isOwnerActive_other a k jid now h

theorem resumeSweepStep_sublist (a : Activity) (k : String) (msgs : MsgsDb)
    (contacts : ContactsDb) (now : Time) :
    (resumeSweepStep a k msgs contacts now).1.Sublist a := by
  simp only [resumeSweepStep]
  split_ifs
  · exact isOwnerActive_snd_sublist a k now
  · exact (jdelete_sublist _ _).trans (isOwnerActive_snd_sublist a k now)
  · exact (jdelete_sublist _ _).trans (isOwnerActive_snd_sublist a k now)

theorem resumeSweepStep_self (a : Activity) (jid : String) (msgs : MsgsDb)
    (contacts : ContactsDb) (now : Time) (hnd : (jkeys a).Nodup)
    (hexp : (isOwnerActive a jid now).1 = false) :
    jget (resumeSweepStep a jid msgs contacts now).1 jid = none ∧
    (resumeSweepStep a jid msgs contacts now).2
      = (if resumeEligible msgs contacts jid then [jid] else []) := by
  simp only [resumeSweepStep]
  rw [if_neg (by simp [hexp])]
  refine ⟨?_, rfl⟩
  exact jget_jdelete_self _ _
    (hnd.sublist ((isOwnerActive_snd_sublist a jid now).map Prod.fst))

theorem resumeSweepStep_active (a : Activity) (jid : String) (msgs : MsgsDb)
    (contacts : ContactsDb) (now : Time)
    (hact : (isOwnerActive a jid now).1 = true) :
    resumeSweepStep a jid msgs contacts now = (a, []) := by
  simp only [resumeSweepStep]
  rw [if_pos hact, isOwnerActive_true_snd a jid now hact]

theorem resumeFold_sublist (msgs : MsgsDb) (contacts : ContactsDb) (now : Time)
    (keys : List String) (a : Activity) (inv : List String) :
    (keys.foldl (resumeFoldStep msgs contacts now) (a, inv)).1.Sublist a := by
  induction keys generalizing a inv with
  | nil => exact List.Sublist.refl a
  | cons k ks ih =>
    rw [List.foldl_cons]
    exact (ih (resumeSweepStep a k msgs contacts now).1
      (inv ++ (resumeSweepStep a k msgs contacts now).2)).trans
      (resumeSweepStep_sublist a k msgs contacts now)

theorem resumeFold_not_mem (msgs : MsgsDb) (contacts : ContactsDb) (now : Time)
    (keys : List String) (jid : String) (a : Activity) (inv : List String)
    (h : jid ∉ keys) :
    jget (keys.foldl (resumeFoldStep msgs contacts now) (a, inv)).1 jid = jget a jid ∧
    (keys.foldl (resumeFoldStep msgs contacts now) (a, inv)).2.count jid
      = inv.count jid := by
  induction keys generalizing a inv with
  | nil => exact ⟨rfl, rfl⟩
  | cons k ks ih =>
    have hk : k ≠ jid := fun hc => h (by simp [hc])
    have hks : jid ∉ ks := fun hc => h (by simp [hc])
    rw [List.foldl_cons]
    simp only [resumeFoldStep]
    obtain ⟨ih1, ih2⟩ := ih (resumeSweepStep a k msgs contacts now).1
      (inv ++ (resumeSweepStep a k msgs contacts now).2) hks
    obtain ⟨hs1, hs2⟩ := resumeSweepStep_other a k jid msgs contacts now hk
    refine ⟨ih1.trans hs1, ?_⟩
    rw [ih2, List.count_append, hs2]
    omega

/-- C5: the resume sweep.  For every contact tracked in the activity
map (with unique keys): once the cooldown has expired
(`isOwnerActive` false) the sweep removes the contact from the map in
every case, and invokes the routing/reply logic exactly once iff the
contact's most recent stored message exists and is inbound and the
contact exists with auto-reply enabled (`resumeEligible`), otherwise
zero times; while the cooldown has not expired the entry is kept
untouched and nothing is invoked. -/
theorem resumeSweep_spec (act : Activity) (msgs : MsgsDb) (contacts : ContactsDb)
    (now : Time) (jid : String)
    (hnd : (jkeys act).Nodup) (hmem : jid ∈ jkeys act) :
    ((isOwnerActive act jid now).1 = false →
       jget (resumeSweep act msgs contacts now).1 jid = none ∧
       (resumeSweep act msgs contacts now).2.count jid
         = (if resumeEligible msgs contacts jid then 1 else 0)) ∧
    ((isOwnerActive act jid now).1 = true →
       jget (resumeSweep act msgs contacts now).1 jid = jget act jid ∧
       (resumeSweep act msgs contacts now).2.count jid = 0) := by
  obtain ⟨l1, l2, hsplit⟩ := List.append_of_mem hmem
  have hnd' := hnd
  rw [hsplit] at hnd'
  rw [List.nodup_append] at hnd'
  obtain ⟨hnd1, hnd2, hdisj⟩ := hnd'
  have hjl2 : jid ∉ l2 := (List.nodup_cons.mp hnd2).1
  have hjl1 : jid ∉ l1 := fun hc => hdisj hc (List.mem_cons_self jid l2)
  have hsweep : resumeSweep act msgs contacts now
      = (jid :: l2).foldl (resumeFoldStep msgs contacts now)
          (l1.foldl (resumeFoldStep msgs contacts now) (act, [])) := by
    rw [resumeSweep, hsplit, List.foldl_append]
  obtain ⟨hA1get, hA1cnt⟩ := resumeFold_not_mem msgs contacts now l1 jid act [] hjl1
  have hA1sub := resumeFold_sublist msgs contacts now l1 act []
  have hA1nd : (jkeys (l1.foldl (resumeFoldStep msgs contacts now) (act, [])).1).Nodup :=
    hnd.sublist (hA1sub.map Prod.fst)
  constructor
  · intro hexp
    have hexp' : (isOwnerActive
        (l1.foldl (resumeFoldStep msgs contacts now) (act, [])).1 jid now).1 = false := by
      rw [isOwnerActive_fst_congr _ act jid now hA1get]
      exact hexp
    obtain ⟨hstep1, hstep2⟩ := resumeSweepStep_self
      (l1.foldl (resumeFoldStep msgs contacts now) (act, [])).1 jid msgs contacts now
      hA1nd hexp'
    rw [hsweep, List.foldl_cons]
    simp only [resumeFoldStep]
    obtain ⟨hf1, hf2⟩ := resumeFold_not_mem msgs contacts now l2 jid
      (resumeSweepStep (l1.foldl (resumeFoldStep msgs contacts now) (act, [])).1
        jid msgs contacts now).1
      ((l1.foldl (resumeFoldStep msgs contacts now) (act, [])).2 ++
        (resumeSweepStep (l1.foldl (resumeFoldStep msgs contacts now) (act, [])).1
          jid msgs contacts now).2) hjl2
    refine ⟨hf1.trans hstep1, ?_⟩
    rw [hf2, List.count_append, hA1cnt, hstep2]
    by_cases helig : resumeEligible msgs contacts jid = true
    · simp [helig]
    · simp only [Bool.not_eq_true] at helig
      simp [helig]
  · intro hact
    have hact' : (isOwnerActive
        (l1.foldl (resumeFoldStep msgs contacts now) (act, [])).1 jid now).1 = true := by
      rw [isOwnerActive_fst_congr _ act jid now hA1get]
      exact hact
    have hstep := resumeSweepStep_active
      (l1.foldl (resumeFoldStep msgs contacts now) (act, [])).1 jid msgs contacts now hact'
    rw [hsweep, List.foldl_cons]
    simp only [resumeFoldStep]
    obtain ⟨hf1, hf2⟩ := resumeFold_not_mem msgs contacts now l2 jid
      (resumeSweepStep (l1.foldl (resumeFoldStep msgs contacts now) (act, [])).1
        jid msgs contacts now).1
      ((l1.foldl (resumeFoldStep msgs contacts now) (act, [])).2 ++
        (resumeSweepStep (l1.foldl (resumeFoldStep msgs contacts now) (act, [])).1
          jid msgs contacts now).2) hjl2
    constructor
    · rw [hf1, hstep]
      exact hA1get
    · rw [hf2, hstep, List.count_append, hA1cnt]
      simp

def sweepAct : Activity := [("a@s", 100), ("b@s", 999000)]
def sweepMsgs : MsgsDb := [("a@s", [⟨"inbound", "hi", some "text", none, none⟩])]
def sweepContacts : ContactsDb := [("a@s", ⟨"a@s", some "A", 1⟩)]

/-- C5 witness: at `now = 1000000`, "a@s" (anchor 100, expired, last
message inbound, auto-reply enabled) is removed and routed exactly
once; "b@s" (anchor 999000, still in cooldown) is kept untouched and
not routed. -/
theorem resumeSweep_spec_witness :
    jget (resumeSweep sweepAct sweepMsgs sweepContacts 1000000).1 "a@s" = none ∧
    (resumeSweep sweepAct sweepMsgs sweepContacts 1000000).2.count "a@s" = 1 ∧
    jget (resumeSweep sweepAct sweepMsgs sweepContacts 1000000).1 "b@s" = some 999000 ∧
    (resumeSweep sweepAct sweepMsgs sweepContacts 1000000).2.count "b@s" = 0 := by
  have ha := (resumeSweep_spec sweepAct sweepMsgs sweepContacts 1000000 "a@s"
    (by decide) (by decide)).1 (by decide)
  have hb := (resumeSweep_spec sweepAct sweepMsgs sweepContacts 1000000 "b@s"
    (by decide) (by decide)).2 (by decide)
  refine ⟨ha.1, ?_, ?_, hb.2⟩
  · rw [ha.2]
    decide
  · rw [hb.1]
    decide

end Friday
